import Mathlib

/-!
Verification of the deterministic post-processing core of the shipment
extraction repository (src/extract.py): pattern extractors, the port-name
resolver, the port reference index and the field corrector
(post_process_extraction).  Python strings are modeled as lists of unicode
characters, Python floats as rationals, Python dicts keyed by port code as
association lists, and a Python IndexError as an exceptional result.
-/

namespace Extract

/-- Python strings, modeled as lists of unicode characters. -/
abbrev PyStr := List Char

/-- Models the Python expression `needle in hay` (substring containment). -/
def strHas (hay needle : PyStr) : Bool :=
  needle.isPrefixOf hay ||
    match hay with
    | [] => false
    | _ :: t => strHas t needle

/-- Models Python `str.lower()` (ASCII range; the patterns below only ever
compare ASCII characters). -/
def pyLower (s : PyStr) : PyStr := s.map Char.toLower

/-- Models Python `str.upper()` (ASCII range). -/
def pyUpper (s : PyStr) : PyStr := s.map Char.toUpper

/-- Whitespace for the regex class and for `str.strip()` (ASCII range). -/
def pyIsSpace (c : Char) : Bool :=
  c = ' ' || c = '\t' || c = '\n' || c = '\x0d' || c = '\x0b' || c = '\x0c'

/-- Word characters for the regex class (ASCII range). -/
def isWordChar (c : Char) : Bool := c.isAlphanum || c = '_'

/-- Splits a maximal leading digit run from the rest of the string. -/
def takeDigits (s : PyStr) : PyStr × PyStr :=
  (s.takeWhile Char.isDigit, s.dropWhile Char.isDigit)

/-- Drops a maximal leading whitespace run. -/
def dropSpaces (s : PyStr) : PyStr := s.dropWhile pyIsSpace

/-- Models Python `str.strip()`: drop whitespace at both ends. -/
def pyStrip (s : PyStr) : PyStr :=
  ((s.dropWhile pyIsSpace).reverse.dropWhile pyIsSpace).reverse

/-- In src/extract.py every right-arrow string literal is stored as the UTF-8
bytes of the arrow glyph mis-decoded as Mac-Roman: the three characters
U+201A, U+00DC, U+00ED rather than the single arrow character U+2192
(the repository's prompts.py, by contrast, contains the genuine arrow). -/
def garbledArrow : PyStr := ['‚', 'Ü', 'í']

/-- Embeds `is_consolidated_inquiry` (src/extract.py line 117):
`";" in body and ("‚Üí" in body or "->" in body)` where the first
alternative is the garbled arrow literal. -/
def is_consolidated_inquiry (body : PyStr) : Bool :=
  strHas body [';'] && (strHas body garbledArrow || strHas body ['-', '>'])

/-- Value of a digit string, per Python `int`/`float` integer-part parsing. -/
def digitsVal (s : PyStr) : ℕ :=
  s.foldl (fun a c => 10 * a + (c.toNat - '0'.toNat)) 0

/-- Models Python `float(s)` for the strings produced by the regex groups
below: an optional digit run, an optional dot, an optional digit run. -/
def parseDec (s : PyStr) : ℚ :=
  let ip := s.takeWhile (· ≠ '.')
  let rest := s.dropWhile (· ≠ '.')
  let fp := rest.drop 1
  (digitsVal ip : ℚ) + (digitsVal fp : ℚ) / (10 : ℚ) ^ fp.length

/-- Models Python `round(q, 2)`.  Python rounds ties on binary floats to
even; no value handled by this development sits on a tie, so the exact
tie-breaking rule is immaterial and the Mathlib `round` is used. -/
def round2 (q : ℚ) : ℚ := (round (100 * q) : ℤ) / 100

/-- Models Python `str.replace(",", "")`. -/
def stripCommas (s : PyStr) : PyStr := s.filter (· ≠ ',')

/-- Tests the regex tail `\s*kg` (the `(?:kg|kgs)` alternations below also
match exactly when this does, since the `s` is optional). -/
def kgTail (s : PyStr) : Bool :=
  match dropSpaces s with
  | 'k' :: 'g' :: _ => true
  | _ => false

/-- Match of `(\d+(?:,\d+)?(?:\.\d+)?)\s*kg` anchored at the start of `s`,
returning the captured group (the regex of
`extract_weight_from_consolidated`, line 247).  Optional groups are tried
greedily first, as the backtracking engine does; shrinking a greedy digit
run never helps, because the character following a shrunk run is a digit,
which no later pattern element can consume. -/
def kgMatchAt (s : PyStr) : Option PyStr :=
  let (d1, r1) := takeDigits s
  if d1 = [] then none else
    let dotPart (g : PyStr) (r : PyStr) : Option PyStr :=
      (match r with
       | '.' :: r2 =>
         let (d3, r3) := takeDigits r2
         if d3 ≠ [] && kgTail r3 then some (g ++ '.' :: d3) else none
       | _ => none)
      <|> (if kgTail r then some g else none)
    (match r1 with
     | ',' :: r2 =>
       let (d2, r3) := takeDigits r2
       if d2 ≠ [] then dotPart (d1 ++ ',' :: d2) r3 else none
     | _ => none)
    <|> dotPart d1 r1

/-- Leftmost match of the kg pattern: the first element of
`re.findall(r'(\d+(?:,\d+)?(?:\.\d+)?)\s*kg', s)`. -/
def kgScan : PyStr → Option PyStr
  | [] => none
  | s@(_ :: t) => kgMatchAt s <|> kgScan t

/-- Embeds `extract_weight_from_consolidated` (src/extract.py lines 241-252). -/
def extract_weight_from_consolidated (body : PyStr) : Option ℚ :=
  match kgScan (pyLower body) with
  | some g => some (round2 (parseDec (stripCommas g)))
  | none => none

/-- Tests the regex tail `\s*rt`. -/
def rtTail (s : PyStr) : Bool :=
  match dropSpaces s with
  | 'r' :: 't' :: _ => true
  | _ => false

/-- Match of `(\d+\.?\d*)\s*rt` anchored at the start of `s` (the RT regex
of post_process_extraction, line 289). -/
def rtMatchAt (s : PyStr) : Option PyStr :=
  let (d1, r1) := takeDigits s
  if d1 = [] then none else
    (match r1 with
     | '.' :: r2 =>
       let (d2, r3) := takeDigits r2
       if rtTail r3 then some (d1 ++ '.' :: d2) else none
     | _ => none)
    <|> (if rtTail r1 then some d1 else none)

/-- Leftmost match of the RT pattern, as `re.search` finds it. -/
def rtScan : PyStr → Option PyStr
  | [] => none
  | s@(_ :: t) => rtMatchAt s <|> rtScan t

/-- Greedily consumes one or more `,ddd` groups of the grouped-thousands
regex; returns the consumed text and the rest, or none when no group
follows.  Backtracking to fewer groups never helps: the rest would then
start with a comma, which `\s*(?:kg|kgs)` cannot consume. -/
def commaGroups : PyStr → Option (PyStr × PyStr)
  | ',' :: a :: b :: c :: r =>
    if a.isDigit && b.isDigit && c.isDigit then
      match commaGroups r with
      | some (g, r') => some (',' :: a :: b :: c :: g, r')
      | none => some ([',', a, b, c], r)
    else none
  | _ => none

/-- Match of `(\d{1,3}(?:,\d{3})+)\s*(?:kg|kgs)` anchored at the start of
`s` (line 306).  A leading digit run longer than 3 cannot match: taking
fewer than the whole run leaves a digit where the comma is required. -/
def commaWeightMatchAt (s : PyStr) : Option PyStr :=
  let (d1, r1) := takeDigits s
  if d1 = [] || 3 < d1.length then none else
    match commaGroups r1 with
    | some (g, r2) => if kgTail r2 then some (d1 ++ g) else none
    | none => none

/-- Leftmost match of the grouped-thousands weight pattern. -/
def commaScan : PyStr → Option PyStr
  | [] => none
  | s@(_ :: t) => commaWeightMatchAt s <|> commaScan t

/-- Match of `(\d+)\s*(?:kg|kgs)` anchored at the start of `s` (line 315). -/
def plainKgMatchAt (s : PyStr) : Option PyStr :=
  let (d1, r1) := takeDigits s
  if d1 = [] then none else if kgTail r1 then some d1 else none

/-- Leftmost match of the plain-digit kg pattern. -/
def plainKgScan : PyStr → Option PyStr
  | [] => none
  | s@(_ :: t) => plainKgMatchAt s <|> plainKgScan t

/-- Match of `(\w+)\s+or\s+(\w+)` anchored at the start of `s` (line 177),
as a boolean: the caller only tests whether a match exists.  The word run
must be taken whole: stopping early leaves a word character where `\s+` is
required, and after the literal `or` another `\s+` and a word character
must follow. -/
def orMatchAt (s : PyStr) : Bool :=
  let w1 := s.takeWhile isWordChar
  let r1 := s.dropWhile isWordChar
  let sp1 := r1.takeWhile pyIsSpace
  let r2 := r1.dropWhile pyIsSpace
  w1 ≠ [] && sp1 ≠ [] &&
    match r2 with
    | 'o' :: 'r' :: r3 =>
      let sp2 := r3.takeWhile pyIsSpace
      let r4 := r3.dropWhile pyIsSpace
      sp2 ≠ [] && (match r4 with | c :: _ => isWordChar c | [] => false)
    | _ => false

/-- Existence of a `(\w+)\s+or\s+(\w+)` match anywhere in `s`. -/
def orSearch : PyStr → Bool
  | [] => false
  | s@(_ :: t) => orMatchAt s || orSearch t

/-- Match of `(\w+)/(\w+)` anchored at the start of `s` (line 183), as a
boolean. -/
def slashMatchAt (s : PyStr) : Bool :=
  let w1 := s.takeWhile isWordChar
  let r1 := s.dropWhile isWordChar
  w1 ≠ [] &&
    match r1 with
    | '/' :: c :: _ => isWordChar c
    | _ => false

/-- Existence of a `(\w+)/(\w+)` match anywhere in `s`. -/
def slashSearch : PyStr → Bool
  | [] => false
  | s@(_ :: t) => slashMatchAt s || slashSearch t

/-- Finds the first occurrence of `sep` in `s`, returning the text before
and the text after it; none when `sep` does not occur. -/
def splitFirst (sep : PyStr) : PyStr → Option (PyStr × PyStr)
  | [] => if sep.isPrefixOf ([] : PyStr) then some ([], []) else none
  | s@(c :: t) =>
    if sep.isPrefixOf s then some ([], s.drop sep.length)
    else (splitFirst sep t).map fun p => (c :: p.1, p.2)

/-- Models Python `s.split(sep)[1]`, defined when `sep` occurs in `s` (the
callers guard on that): the text between the first and the second
occurrence of `sep`, or everything after the first occurrence when it is
the only one. -/
def splitSecondField (sep s : PyStr) : PyStr :=
  match splitFirst sep s with
  | some (_, post) =>
    match splitFirst sep post with
    | some (b, _) => b
    | none => post
  | none => s

theorem splitFirst_length_lt (c : Char) (cs : PyStr) :
    ∀ s b post, splitFirst (c :: cs) s = some (b, post) → post.length < s.length := by
  intro s
  induction s with
  | nil => intro b post h; simp [splitFirst] at h
  | cons x t ih =>
    intro b post h
    rw [splitFirst] at h
    by_cases hp : (c :: cs).isPrefixOf (x :: t) = true
    · rw [if_pos hp] at h
      have hpost : post = (x :: t).drop (c :: cs).length := by
        injection h with h'
        exact (congrArg Prod.snd h').symm
      subst hpost
      simp only [List.length_drop, List.length_cons]
      omega
    · rw [if_neg hp] at h
      cases hsp : splitFirst (c :: cs) t with
      | none => rw [hsp] at h; simp at h
      | some p =>
        rw [hsp] at h
        have hpost : post = p.2 := by
          injection h with h'
          exact (congrArg Prod.snd h').symm
        subst hpost
        exact Nat.lt_trans (ih p.1 p.2 hsp) (by simp)

/-- Models Python `s.replace(sep, "")` for a non-empty separator: removes
every non-overlapping occurrence, scanning left to right. -/
def replaceDropAll (c : Char) (cs : PyStr) (s : PyStr) : PyStr :=
  match h : splitFirst (c :: cs) s with
  | none => s
  | some (b, post) => b ++ replaceDropAll c cs post
termination_by s.length
decreasing_by exact splitFirst_length_lt c cs s _ _ h

/-- Models Python `sep.join(parts)`. -/
def joinSep (sep : PyStr) : List PyStr → PyStr
  | [] => []
  | [x] => x
  | x :: y :: rest => x ++ sep ++ joinSep sep (y :: rest)

/-- The fixed destination-abbreviation table of
`get_consolidated_dest_order` (line 137), in dict insertion order. -/
def abbrevMap : List (PyStr × PyStr) :=
  [("MAA".data, "Chennai".data), ("BLR".data, "Bangalore".data),
   ("HYD".data, "Hyderabad".data)]

/-- The destination part of one route segment (lines 129-134): the text
after the first arrow token, stripped and upper-cased; none when the
segment holds no arrow.  The unicode alternative tests for the garbled
arrow literal, exactly as the source does. -/
def destFromRoute (route : PyStr) : Option PyStr :=
  if strHas route garbledArrow then
    some (pyUpper (pyStrip (splitSecondField garbledArrow route)))
  else if strHas route ['-', '>'] then
    some (pyUpper (pyStrip (splitSecondField ['-', '>'] route)))
  else none

/-- Embeds `get_consolidated_dest_order` (src/extract.py lines 120-142). -/
def get_consolidated_dest_order (body : PyStr) : List PyStr :=
  (body.splitOn ';').foldl (fun order route =>
    match destFromRoute route with
    | none => order
    | some destPart =>
      match abbrevMap.find? (fun p => strHas destPart p.1) with
      | some p => order ++ [p.2]
      | none => order) []

/-- Lookup in an association list standing in for a Python dict. -/
def alookup {β : Type} (l : List (PyStr × β)) (k : PyStr) : Option β :=
  match l.find? (fun p => p.1 = k) with
  | some p => some p.2
  | none => none

/-- Sets a key in an association list: a present key is updated in place,
a missing key is appended, matching dict insertion order. -/
def alSet {β : Type} (l : List (PyStr × β)) (k : PyStr) (v : β) :
    List (PyStr × β) :=
  if (l.find? (fun p => p.1 = k)).isSome
  then l.map (fun p => if p.1 = k then (p.1, v) else p)
  else l ++ [(k, v)]

/-- One record of the external port reference table. -/
structure PortRecord where
  code : PyStr
  name : PyStr

/-- Embeds the canonical-name preference of `load_port_reference`
(lines 50-60): a name containing "/" beats one without; otherwise the
strictly longer name wins, the incumbent surviving ties. -/
def updateCanon (current name : PyStr) : PyStr :=
  if strHas name ['/'] && !strHas current ['/'] then name
  else if !strHas name ['/'] && strHas current ['/'] then current
  else if current.length < name.length then name
  else current

/-- One loop step of `load_port_reference` restricted to the
`code_to_name` dict (lines 48-60). -/
def stepCanon (m : List (PyStr × PyStr)) (r : PortRecord) : List (PyStr × PyStr) :=
  match alookup m r.code with
  | none => alSet m r.code r.name
  | some cur => alSet m r.code (updateCanon cur r.name)

/-- The `code_to_name` dict built by `load_port_reference`.  The
`name_to_code` dict and its abbreviation table are not modeled: no
verified property below depends on them. -/
def buildCanon (records : List PortRecord) : List (PyStr × PyStr) :=
  records.foldl stepCanon []

/-- One loop step of `load_port_reference` restricted to the
`code_to_all_names` dict (lines 42-45). -/
def stepAllNames (m : List (PyStr × List PyStr)) (r : PortRecord) :
    List (PyStr × List PyStr) :=
  match alookup m r.code with
  | none => alSet m r.code [r.name]
  | some names => alSet m r.code (names ++ [r.name])

/-- The `code_to_all_names` dict built by `load_port_reference`. -/
def buildAllNames (records : List PortRecord) : List (PyStr × List PyStr) :=
  records.foldl stepAllNames []

/-- Models Python `min(names, key=len)` on a non-empty list: the first
name of minimal length. -/
def minByLen (h : PyStr) (t : List PyStr) : PyStr :=
  t.foldl (fun best n => if n.length < best.length then n else best) h

/-- The fixed city-keyword table of `get_best_port_name` (lines 200-209),
in dict insertion order. -/
def cityKeywords : List (PyStr × PyStr) :=
  [("chennai".data, "Chennai ICD".data),
   ("bangalore".data, "Bangalore ICD".data),
   ("blr".data, "Bangalore ICD".data),
   ("hyderabad".data, "Hyderabad ICD".data),
   ("hyd".data, "Hyderabad ICD".data),
   ("mundra".data, "Mundra ICD".data),
   ("bangkok".data, "Bangkok ICD".data),
   ("whitefield".data, "ICD Whitefield".data)]

/-- The keyword loop of `get_best_port_name` (lines 212-221): for the
first table entry whose keyword occurs in the lower-cased body (with
"icd" also present), return its label if on record, else its reordered
"ICD City" form if on record; entries resolving to neither are skipped. -/
def icdKeywordScan (bodyLower : PyStr) (allNames : List PyStr) :
    List (PyStr × PyStr) → Option PyStr
  | [] => none
  | (kw, icdName) :: rest =>
    if strHas bodyLower kw && strHas bodyLower ("icd".data) then
      if allNames.contains icdName then some icdName
      else
        let rev := ("ICD ".data) ++ replaceDropAll ' ' ("ICD".data) icdName
        if allNames.contains rev then some rev
        else icdKeywordScan bodyLower allNames rest
    else icdKeywordScan bodyLower allNames rest

/-- The four early-returning rule blocks of `get_best_port_name`
(lines 158-231), combined in source order as one optional value. -/
def resolverRules (port_code email_body : PyStr) (all_names : List PyStr)
    (is_destination : Bool) : Option PyStr :=
  let body_lower := pyLower email_body
  let combined := all_names.filter (fun n => strHas n (" / ".data))
  -- consolidated destinations, lines 158-172
  let rConsolidated : Option PyStr :=
    if is_consolidated_inquiry email_body && is_destination then
      let dest_order := get_consolidated_dest_order email_body
      if 2 ≤ dest_order.length then
        let expected := joinSep (" / ".data) (dest_order.map (fun city => city ++ (" ICD".data)))
        if all_names.contains expected then some expected else combined.head?
      else none
    else none
  -- origin combined-name patterns, lines 174-187
  let rOrigin : Option PyStr :=
    if !is_destination then
      (if orSearch body_lower then combined.head? else none) <|>
        (if slashSearch body_lower then combined.head? else none)
    else none
  -- "to india" rule, lines 189-194
  let rIndia : Option PyStr :=
    if is_destination && port_code = ("INMAA".data) &&
        strHas body_lower (" to india".data) &&
        !strHas body_lower ("icd".data) && !strHas body_lower ("ppg".data) then
      (all_names.filter (fun n => strHas (pyLower n) ("india".data))).head?
    else none
  -- ICD / PPG rule, lines 196-231
  let rIcd : Option PyStr :=
    if is_destination && (strHas body_lower ("icd".data) || strHas body_lower ("ppg".data)) then
      icdKeywordScan body_lower all_names cityKeywords <|>
        (match all_names.filter
            (fun n => strHas (pyLower n) ("icd".data) && !strHas n (" / ".data)) with
         | [] => none
         | s0 :: srest =>
           match (s0 :: srest).filter (fun n => strHas (pyLower n) ("chennai".data)) with
           | [] => some s0
           | c0 :: _ => some c0)
    else none
  rConsolidated <|> rOrigin <|> rIndia <|> rIcd

/-- The default of `get_best_port_name` (lines 233-238): the first
shortest simple name, else the first name on record; the exceptional
result models the IndexError Python raises at `all_names[0]` when the
name list is empty. -/
def defaultName (all_names : List PyStr) : Except Unit PyStr :=
  match all_names.filter (fun n => !strHas n (" / ".data)) with
  | s0 :: srest => .ok (minByLen s0 srest)
  | [] =>
    match all_names with
    | a0 :: _ => .ok a0
    | [] => .error ()

/-- Embeds `get_best_port_name` (src/extract.py lines 145-238): the falsy
or unknown code returns null, then the rule blocks in source order, then
the default. -/
def get_best_port_name (port_code : PyStr) (email_body : PyStr)
    (code_to_all_names : List (PyStr × List PyStr)) (is_destination : Bool) :
    Except Unit (Option PyStr) :=
  if port_code = [] then .ok none else
  match alookup code_to_all_names port_code with
  | none => .ok none
  | some all_names =>
    match resolverRules port_code email_body all_names is_destination with
    | some n => .ok (some n)
    | none =>
      match defaultName all_names with
      | .ok n => .ok (some n)
      | .error e => .error e

/-- The working record mutated by `post_process_extraction`; the optional
fields are the nullable fields of the ShipmentCandidate schema. -/
@[ext]
structure Candidate where
  id : PyStr
  product_line : Option PyStr
  origin_port_code : Option PyStr
  origin_port_name : Option PyStr
  destination_port_code : Option PyStr
  destination_port_name : Option PyStr
  incoterm : Option PyStr
  cargo_weight_kg : Option ℚ
  cargo_cbm : Option ℚ
  is_dangerous : Bool
deriving DecidableEq

/-- Python truthiness of an optional string (None and "" are falsy). -/
def truthyStr : Option PyStr → Bool
  | none => false
  | some s => s ≠ []

/-- Python truthiness of an optional number (None and 0 are falsy). -/
def truthyQ : Option ℚ → Bool
  | none => false
  | some q => q ≠ 0

/-- Step 1 of `post_process_extraction` (lines 269-279): product line
from the port-code country prefixes. -/
def ppProductLine (x : Candidate) : Candidate :=
  if x.destination_port_code.getD [] ≠ [] &&
      ("IN".data).isPrefixOf (x.destination_port_code.getD []) then
    { x with product_line := some ("pl_sea_import_lcl".data) }
  else if x.origin_port_code.getD [] ≠ [] &&
      ("IN".data).isPrefixOf (x.origin_port_code.getD []) then
    { x with product_line := some ("pl_sea_export_lcl".data) }
  else
    { x with product_line := some ("pl_sea_import_lcl".data) }

/-- Step 2 (lines 281-286): round the numeric fields when present. -/
def ppRound (x : Candidate) : Candidate :=
  { x with cargo_weight_kg := x.cargo_weight_kg.map round2,
           cargo_cbm := x.cargo_cbm.map round2 }

/-- Step 3 (lines 288-294): the RT override, filling `cargo_cbm` when it
is falsy. -/
def ppRT (body : PyStr) (x : Candidate) : Candidate :=
  match rtScan (pyLower body) with
  | some g =>
    if !truthyQ x.cargo_cbm then { x with cargo_cbm := some (round2 (parseDec g)) } else x
  | none => x

/-- Step 4 (lines 296-301): the consolidated weight fallback, filling
`cargo_weight_kg` when it is falsy and the extracted weight is truthy. -/
def ppConsolidated (body : PyStr) (x : Candidate) : Candidate :=
  if is_consolidated_inquiry body && !truthyQ x.cargo_weight_kg then
    match extract_weight_from_consolidated body with
    | some w => if w ≠ 0 then { x with cargo_weight_kg := some w } else x
    | none => x
  else x

/-- Step 5 (lines 303-319): the comma-weight override and, failing that,
the small-weight correction heuristic. -/
def ppCommaWeight (body : PyStr) (x : Candidate) : Candidate :=
  match commaScan (pyLower body) with
  | some g => { x with cargo_weight_kg := some (round2 (parseDec (stripCommas g))) }
  | none =>
    match x.cargo_weight_kg with
    | some w =>
      if w < 10 then
        match plainKgScan (pyLower body) with
        | some d =>
          if w * 100 < parseDec d then
            { x with cargo_weight_kg := some (round2 (parseDec d)) }
          else x
        | none => x
      else x
    | none => x

/-- The new value of one port-name field, per one block of step 6
(lines 321-340): when the code is truthy, the index dict is truthy and the
code is a key, the resolver's answer replaces the old name when it is a
truthy string; a falsy code forces the name to null; otherwise the old
name stands. -/
def nameField (body : PyStr) (idx : List (PyStr × List PyStr))
    (code old : Option PyStr) (isDest : Bool) : Except Unit (Option PyStr) :=
  if truthyStr code && idx ≠ [] then
    if (alookup idx (code.getD [])).isSome then
      match get_best_port_name (code.getD []) body idx isDest with
      | .error e => .error e
      | .ok bn =>
        match bn with
        | some n => .ok (if n ≠ [] then some n else old)
        | none => .ok old
    else .ok old
  else if !truthyStr code then .ok none
  else .ok old

/-- The origin half of step 6 (lines 322-330). -/
def ppOriginName (body : PyStr) (idx : List (PyStr × List PyStr)) (x : Candidate) :
    Except Unit Candidate :=
  match nameField body idx x.origin_port_code x.origin_port_name false with
  | .error e => .error e
  | .ok nm => .ok { x with origin_port_name := nm }

/-- The destination half of step 6 (lines 332-340). -/
def ppDestName (body : PyStr) (idx : List (PyStr × List PyStr)) (x : Candidate) :
    Except Unit Candidate :=
  match nameField body idx x.destination_port_code x.destination_port_name true with
  | .error e => .error e
  | .ok nm => .ok { x with destination_port_name := nm }

/-- Step 6 (lines 321-340): the origin block, then the destination block. -/
def ppNames (body : PyStr) (idx : List (PyStr × List PyStr)) (x : Candidate) :
    Except Unit Candidate :=
  match ppOriginName body idx x with
  | .error e => .error e
  | .ok y => ppDestName body idx y

/-- Steps 1 to 5 of `post_process_extraction`: the pure part of the
corrector, before the port names are rewritten. -/
def ppSteps15 (body : PyStr) (x : Candidate) : Candidate :=
  ppCommaWeight body (ppConsolidated body (ppRT body (ppRound (ppProductLine x))))

/-- Embeds `post_process_extraction` (src/extract.py lines 255-342): the
six correction steps in source order.  The unused `name_to_code` and
`code_to_name` parameters of the source function are not modeled. -/
def post_process_extraction (x : Candidate) (body : PyStr)
    (idx : List (PyStr × List PyStr)) : Except Unit Candidate :=
  ppNames body idx (ppSteps15 body x)

/-! Basic facts about rounding and parsing. -/

theorem round2_round2 (q : ℚ) : round2 (round2 q) = round2 q := by
  unfold round2
  have h : (100 : ℚ) * ((round (100 * q) : ℤ) / 100) = ((round (100 * q) : ℤ) : ℚ) := by
    field_simp
  rw [h, round_intCast]

theorem round2_nonneg (q : ℚ) (h : 0 ≤ q) : 0 ≤ round2 q := by
  unfold round2
  have h1 : (0 : ℤ) ≤ round (100 * q) := by
    rw [round_eq]
    refine Int.le_floor.mpr ?_
    push_cast
    nlinarith
  have h3 : (0 : ℚ) ≤ (round (100 * q) : ℤ) := by exact_mod_cast h1
  exact div_nonneg h3 (by norm_num)

theorem round2_natCast (n : ℕ) : round2 (n : ℚ) = n := by
  unfold round2
  have h : (100 : ℚ) * n = ((100 * n : ℕ) : ℚ) := by push_cast; ring
  rw [h, round_natCast]
  push_cast
  field_simp

theorem parseDec_nonneg (s : PyStr) : 0 ≤ parseDec s := by
  unfold parseDec
  positivity

/-- A string of digits parses to its natural-number value. -/
theorem parseDec_digits (s : PyStr) (h : ∀ c ∈ s, c.isDigit = true) :
    parseDec s = (digitsVal s : ℚ) := by
  unfold parseDec
  have ht : s.takeWhile (· ≠ '.') = s := by
    apply List.takeWhile_eq_self_iff.mpr
    intro c hc
    have := h c hc
    simp only [decide_eq_true_eq]
    intro hdot
    rw [hdot] at this
    simp [Char.isDigit] at this
  have hd : s.dropWhile (· ≠ '.') = [] := by
    rw [List.dropWhile_eq_nil_iff]
    intro c hc
    have := h c hc
    simp only [decide_eq_true_eq]
    intro hdot
    rw [hdot] at this
    simp [Char.isDigit] at this
  rw [ht, hd]
  simp [digitsVal]

/-! C1.  The spec states that `isConsolidatedInquiry(body)` is true iff
the body contains ";" and an arrow token (the unicode right-arrow glyph
or "->"), and that it is true at `"A→B 1kg; C→D 2kg"`.  The source
instead tests for the garbled three-character literal (see
`garbledArrow`), so the detection misses genuine arrows. -/

/-- C1: at the spec's own positive example, which contains ";" and the
genuine right-arrow glyph U+2192, `is_consolidated_inquiry` returns
false, because the literal in the code holds the mis-decoded
three-character sequence rather than the arrow. -/
theorem c1_consolidated_detection_misses_real_arrow :
    is_consolidated_inquiry ("A→B 1kg; C→D 2kg".data) = false ∧
    strHas ("A→B 1kg; C→D 2kg".data) [';'] = true ∧
    strHas ("A→B 1kg; C→D 2kg".data) ['→'] = true := by
  refine ⟨?_, ?_, ?_⟩ <;> decide

/-! C5.  Canonical-name selection of the Port Reference Index. -/

/-- Modelled from the spec wording: prefer a name containing the combined
separator "/" over one without; among two combined or two simple names
prefer the longer string, the incumbent surviving ties. -/
def preferNameSpec (current name : PyStr) : PyStr :=
  if strHas name ['/'] then
    if strHas current ['/'] then
      if current.length < name.length then name else current
    else name
  else
    if strHas current ['/'] then current
    else if current.length < name.length then name else current

/-- Modelled from the spec wording: the canonical name of a code's names
in record order, folding the preference rule from the first name. -/
def canonSpec : List PyStr → Option PyStr
  | [] => none
  | n :: t => some (t.foldl preferNameSpec n)

/-- The names carried by the records of one code, in record order. -/
def namesFor (code : PyStr) (records : List PortRecord) : List PyStr :=
  (records.filter (fun r => r.code = code)).map (fun r => r.name)

theorem updateCanon_eq_spec (cur nm : PyStr) :
    updateCanon cur nm = preferNameSpec cur nm := by
  unfold updateCanon preferNameSpec
  by_cases h1 : strHas nm ['/'] = true <;> by_cases h2 : strHas cur ['/'] = true <;>
    simp [h1, h2]

theorem alookup_cons {β : Type} (q : PyStr × β) (t : List (PyStr × β)) (k : PyStr) :
    alookup (q :: t) k = if q.1 = k then some q.2 else alookup t k := by
  unfold alookup
  rw [List.find?]
  by_cases hq : q.1 = k <;> simp [hq]

theorem alookup_isSome_eq_find {β : Type} (l : List (PyStr × β)) (k : PyStr) :
    (l.find? (fun p => p.1 = k)).isSome = (alookup l k).isSome := by
  unfold alookup
  rcases hf : l.find? (fun p => p.1 = k) with _ | p <;> rw [hf] <;> rfl

theorem alookup_map_set_self {β : Type} (l : List (PyStr × β)) (k : PyStr) (v : β) :
    alookup (l.map (fun p => if p.1 = k then (p.1, v) else p)) k =
      if (alookup l k).isSome then some v else none := by
  induction l with
  | nil => simp [alookup]
  | cons q t ih =>
    by_cases hq : q.1 = k
    · rw [List.map_cons, if_pos hq]
      rw [alookup_cons, if_pos hq, alookup_cons, if_pos hq]
      simp
    · rw [List.map_cons, if_neg hq]
      rw [alookup_cons, if_neg hq, alookup_cons, if_neg hq]
      exact ih

theorem alookup_map_set_ne {β : Type} (l : List (PyStr × β)) (k k' : PyStr) (v : β)
    (h : k' ≠ k) :
    alookup (l.map (fun p => if p.1 = k then (p.1, v) else p)) k' = alookup l k' := by
  induction l with
  | nil => simp
  | cons q t ih =>
    by_cases hq : q.1 = k
    · have hq' : ¬ (q.1 = k') := by rw [hq]; exact fun hh => h hh.symm
      rw [List.map_cons, if_pos hq]
      rw [alookup_cons, alookup_cons]
      simp only [if_neg hq']
      exact ih
    · rw [List.map_cons, if_neg hq]
      rw [alookup_cons, alookup_cons]
      by_cases hq' : q.1 = k'
      · simp [hq']
      · simp only [if_neg hq']
        exact ih

theorem alookup_append_one_self {β : Type} (l : List (PyStr × β)) (k : PyStr) (v : β)
    (h : alookup l k = none) : alookup (l ++ [(k, v)]) k = some v := by
  induction l with
  | nil => simp [alookup_cons]
  | cons q t ih =>
    rw [alookup_cons] at h
    rw [List.cons_append, alookup_cons]
    by_cases hq : q.1 = k
    · rw [if_pos hq] at h; exact absurd h (by simp)
    · rw [if_neg hq] at h ⊢
      exact ih h

theorem alookup_append_one_ne {β : Type} (l : List (PyStr × β)) (k k' : PyStr) (v : β)
    (h : k' ≠ k) : alookup (l ++ [(k, v)]) k' = alookup l k' := by
  induction l with
  | nil =>
    have : ¬ (k = k') := fun hh => h hh.symm
    simp [alookup_cons, this, alookup]
  | cons q t ih =>
    rw [List.cons_append, alookup_cons, alookup_cons]
    by_cases hq : q.1 = k'
    · simp [hq]
    · simp only [if_neg hq]
      exact ih

theorem alookup_alSet_self {β : Type} (l : List (PyStr × β)) (k : PyStr) (v : β) :
    alookup (alSet l k v) k = some v := by
  unfold alSet
  by_cases h : (l.find? (fun p => p.1 = k)).isSome = true
  · rw [if_pos h, alookup_map_set_self]
    rw [alookup_isSome_eq_find] at h
    rw [if_pos h]
  · rw [if_neg h]
    refine alookup_append_one_self l k v ?_
    rw [alookup_isSome_eq_find] at h
    rcases hl : alookup l k with _ | w
    · rfl
    · rw [hl] at h; simp at h

theorem alookup_alSet_ne {β : Type} (l : List (PyStr × β)) (k k' : PyStr) (v : β)
    (h : k' ≠ k) : alookup (alSet l k v) k' = alookup l k' := by
  unfold alSet
  by_cases hf : (l.find? (fun p => p.1 = k)).isSome = true
  · rw [if_pos hf]
    exact alookup_map_set_ne l k k' v h
  · rw [if_neg hf]
    exact alookup_append_one_ne l k k' v h

theorem namesFor_cons (code : PyStr) (r : PortRecord) (rest : List PortRecord) :
    namesFor code (r :: rest) =
      if r.code = code then r.name :: namesFor code rest else namesFor code rest := by
  unfold namesFor
  by_cases h : r.code = code <;> simp [List.filter, h]

theorem stepCanon_lookup_ne (acc : List (PyStr × PyStr)) (r : PortRecord)
    (code : PyStr) (h : ¬ (r.code = code)) :
    alookup (stepCanon acc r) code = alookup acc code := by
  unfold stepCanon
  rcases alookup acc r.code with _ | v <;>
    exact alookup_alSet_ne _ _ _ _ (fun hh => h hh.symm)

theorem buildCanon_go (recs : List PortRecord) :
    ∀ acc code, alookup (recs.foldl stepCanon acc) code =
      (match alookup acc code with
       | none => canonSpec (namesFor code recs)
       | some v => some ((namesFor code recs).foldl preferNameSpec v)) := by
  induction recs with
  | nil =>
    intro acc code
    rcases h : alookup acc code with _ | v <;> simp [namesFor, canonSpec, h]
  | cons r rest ih =>
    intro acc code
    rw [List.foldl_cons, ih (stepCanon acc r) code, namesFor_cons]
    by_cases hc : r.code = code
    · rw [if_pos hc]
      rcases ha : alookup acc code with _ | v
      · have hs : alookup (stepCanon acc r) code = some r.name := by
          unfold stepCanon
          rw [hc, ha]
          exact alookup_alSet_self acc code r.name
        rw [hs]
        simp [canonSpec]
      · have hs : alookup (stepCanon acc r) code = some (updateCanon v r.name) := by
          unfold stepCanon
          rw [hc, ha]
          exact alookup_alSet_self acc code (updateCanon v r.name)
        rw [hs]
        simp [updateCanon_eq_spec, List.foldl_cons]
    · rw [if_neg hc, stepCanon_lookup_ne acc r code hc]

/-- C5: the canonical-name map built by `load_port_reference` selects, for
every record sequence and every code, exactly the fold of the spec's
preference rule (combined "/" names beat simple ones, longer beats
shorter otherwise) over that code's names in record order; in particular
the records (C, "Chennai") then (C, "Chennai / Bangalore") canonicalize C
to "Chennai / Bangalore". -/
theorem c5_canonical_name_selection :
    (∀ records code,
        alookup (buildCanon records) code = canonSpec (namesFor code records)) ∧
    alookup (buildCanon
        [⟨"C".data, "Chennai".data⟩, ⟨"C".data, "Chennai / Bangalore".data⟩])
        ("C".data) = some ("Chennai / Bangalore".data) := by
  constructor
  · intro records code
    unfold buildCanon
    rw [buildCanon_go]
    rfl
  · decide

/-! C8.  The consolidated weight extractor against the spec's pattern.
The spec states the pattern as digits followed by ZERO OR MORE
comma-digit groups; the source regex allows at most one such group.  On
"1,234,567kg" the spec's first occurrence is the whole number 1234567,
while the code matches "234,567" and returns 234567. -/

/-- Modelled from the spec: the optional dot-digit part, optional
whitespace and the literal kg that close the spec's weight pattern,
appended to an already-captured group `g`. -/
def specTailDotKg (g r : PyStr) : Option PyStr :=
  (match r with
   | '.' :: r2 =>
     let (d, r3) := takeDigits r2
     if d ≠ [] && kgTail r3 then some (g ++ '.' :: d) else none
   | _ => none)
  <|> (if kgTail r then some g else none)

/-- Modelled from the spec wording of the claim: zero or more comma-digit
groups, taken greedily with backtracking, then the closing part.  The
fuel argument only bounds the recursion; each group consumes at least two
characters, so fuel equal to the length of the rest is never exhausted
before the rest is too short to hold a group. -/
def specStarLoop : ℕ → PyStr → PyStr → Option PyStr
  | 0, g, r => specTailDotKg g r
  | fuel + 1, g, r =>
    (match r with
     | ',' :: r2 =>
       let (d, r3) := takeDigits r2
       if d = [] then none else specStarLoop fuel (g ++ ',' :: d) r3
     | _ => none)
    <|> specTailDotKg g r

/-- Modelled from the spec: the starred weight pattern anchored at the
start of `s`. -/
def specStarAt (s : PyStr) : Option PyStr :=
  let (d1, r1) := takeDigits s
  if d1 = [] then none else specStarLoop r1.length d1 r1

/-- Modelled from the spec: the first occurrence of the starred weight
pattern. -/
def specStarScan : PyStr → Option PyStr
  | [] => none
  | s@(_ :: t) => specStarAt s <|> specStarScan t

/-- Modelled from the spec sentence of C8: scan the lower-cased body for
the first occurrence of the starred pattern, strip thousands separators,
parse, round to 2 decimal places, null if no match. -/
def specStarExtract (body : PyStr) : Option ℚ :=
  match specStarScan (pyLower body) with
  | some g => some (round2 (parseDec (stripCommas g)))
  | none => none

/-- C8 counterexample: on "1,234,567kg" the code returns 234567 while the
spec's stated pattern captures the whole grouped number 1234567. -/
theorem c8_counterexample_comma_groups :
    extract_weight_from_consolidated ("1,234,567kg".data) = some 234567 ∧
    specStarExtract ("1,234,567kg".data) = some 1234567 ∧
    (234567 : ℚ) ≠ 1234567 := by
  refine ⟨?_, ?_, by norm_num⟩
  · have hscan : kgScan (pyLower ("1,234,567kg".data)) = some ("234,567".data) := by
      decide
    unfold extract_weight_from_consolidated
    simp only [hscan]
    have hstrip : stripCommas ("234,567".data) = "234567".data := by decide
    rw [hstrip, parseDec_digits _ (by decide)]
    have hd : digitsVal ("234567".data) = 234567 := by decide
    rw [hd, round2_natCast]
    norm_num
  · have hscan : specStarScan (pyLower ("1,234,567kg".data)) = some ("1,234,567".data) := by
      decide
    unfold specStarExtract
    simp only [hscan]
    have hstrip : stripCommas ("1,234,567".data) = "1234567".data := by decide
    rw [hstrip, parseDec_digits _ (by decide)]
    have hd : digitsVal ("1234567".data) = 1234567 := by decide
    rw [hd, round2_natCast]
    norm_num

/-- Modelled from the amended claim wording: digits, AT MOST ONE
comma-digit group, the optional dot-digit part, optional whitespace, kg,
anchored at the start of `s`. -/
def specOnceAt (s : PyStr) : Option PyStr :=
  let (d1, r1) := takeDigits s
  if d1 = [] then none else
    (match r1 with
     | ',' :: r2 =>
       let (d2, r3) := takeDigits r2
       if d2 ≠ [] then specTailDotKg (d1 ++ ',' :: d2) r3 else none
     | _ => none)
    <|> specTailDotKg d1 r1

/-- Modelled from the amended claim: the first occurrence of the
at-most-one-group pattern. -/
def specOnceScan : PyStr → Option PyStr
  | [] => none
  | s@(_ :: t) => specOnceAt s <|> specOnceScan t

/-- Modelled from the amended claim: scan, strip separators, parse,
round; null when no occurrence exists. -/
def specOnceExtract (body : PyStr) : Option ℚ :=
  match specOnceScan (pyLower body) with
  | some g => some (round2 (parseDec (stripCommas g)))
  | none => none

theorem kgMatchAt_eq_specOnceAt (s : PyStr) : kgMatchAt s = specOnceAt s := by
  unfold kgMatchAt specOnceAt specTailDotKg
  rfl

theorem kgScan_eq_specOnceScan (s : PyStr) : kgScan s = specOnceScan s := by
  induction s with
  | nil => rfl
  | cons c t ih =>
    rw [kgScan, specOnceScan, kgMatchAt_eq_specOnceAt, ih]

/-- C8 amended: `extract_weight_from_consolidated` returns the value of
the first occurrence in the lower-cased body of the pattern
digits, AT MOST ONE comma-digit group, an optional dot-digit part,
optional whitespace, then "kg", comma-stripped, parsed and rounded to 2
decimal places; null when no occurrence exists. -/
theorem c8_weight_extractor_amended (body : PyStr) :
    extract_weight_from_consolidated body = specOnceExtract body := by
  unfold extract_weight_from_consolidated specOnceExtract
  rw [kgScan_eq_specOnceScan]

/-! Characterizations of the corrector steps as single-field updates. -/

/-- The product-line value of step 1 as a function of the two codes. -/
def plRule (origin dest : Option PyStr) : PyStr :=
  if dest.getD [] ≠ [] && ("IN".data).isPrefixOf (dest.getD []) then
    "pl_sea_import_lcl".data
  else if origin.getD [] ≠ [] && ("IN".data).isPrefixOf (origin.getD []) then
    "pl_sea_export_lcl".data
  else "pl_sea_import_lcl".data

/-- The cargo-volume value of step 3 as a function of the old value. -/
def rtStep (bodyLower : PyStr) (c : Option ℚ) : Option ℚ :=
  match rtScan bodyLower with
  | some g => if !truthyQ c then some (round2 (parseDec g)) else c
  | none => c

/-- The weight value of step 4 as a function of the old value. -/
def consolStep (body : PyStr) (w : Option ℚ) : Option ℚ :=
  if is_consolidated_inquiry body && !truthyQ w then
    match extract_weight_from_consolidated body with
    | some e => if e ≠ 0 then some e else w
    | none => w
  else w

/-- The weight value of step 5 as a function of the old value. -/
def commaStep (bodyLower : PyStr) (w : Option ℚ) : Option ℚ :=
  match commaScan bodyLower with
  | some g => some (round2 (parseDec (stripCommas g)))
  | none =>
    match w with
    | some v =>
      if v < 10 then
        match plainKgScan bodyLower with
        | some d => if v * 100 < parseDec d then some (round2 (parseDec d)) else w
        | none => w
      else w
    | none => w

theorem ppProductLine_eq (x : Candidate) :
    ppProductLine x =
      { x with
        product_line := some (plRule x.origin_port_code x.destination_port_code) } := by
  obtain ⟨i, pl, oc, onm, dc, dnm, ic, w, c, dg⟩ := x
  unfold ppProductLine plRule
  split
  · rfl
  · split <;> rfl

theorem ppRT_eq (body : PyStr) (x : Candidate) :
    ppRT body x = { x with cargo_cbm := rtStep (pyLower body) x.cargo_cbm } := by
  obtain ⟨i, pl, oc, onm, dc, dnm, ic, w, c, dg⟩ := x
  unfold ppRT rtStep
  rcases rtScan (pyLower body) with _ | g
  · rfl
  · by_cases ht : (!truthyQ c) = true <;> simp [ht]

theorem ppConsolidated_eq (body : PyStr) (x : Candidate) :
    ppConsolidated body x =
      { x with cargo_weight_kg := consolStep body x.cargo_weight_kg } := by
  obtain ⟨i, pl, oc, onm, dc, dnm, ic, w, c, dg⟩ := x
  unfold ppConsolidated consolStep
  by_cases hc : (is_consolidated_inquiry body && !truthyQ w) = true
  · simp only [hc, if_true]
    rcases extract_weight_from_consolidated body with _ | e
    · rfl
    · by_cases he : (e ≠ 0) <;> simp [he]
  · simp [hc]

theorem ppCommaWeight_eq (body : PyStr) (x : Candidate) :
    ppCommaWeight body x =
      { x with cargo_weight_kg := commaStep (pyLower body) x.cargo_weight_kg } := by
  obtain ⟨i, pl, oc, onm, dc, dnm, ic, w, c, dg⟩ := x
  unfold ppCommaWeight commaStep
  rcases commaScan (pyLower body) with _ | g
  · rcases w with _ | v
    · rfl
    · by_cases hv : v < 10
      · simp only [hv, if_true]
        rcases plainKgScan (pyLower body) with _ | d
        · rfl
        · by_cases hgt : v * 100 < parseDec d <;> simp [hgt]
      · simp [hv]
  · rfl

/-- The weight after steps 1-5, as a function of the initial weight. -/
def wAfter (body : PyStr) (w : Option ℚ) : Option ℚ :=
  commaStep (pyLower body) (consolStep body (w.map round2))

/-- The cargo volume after steps 1-5, as a function of the initial value. -/
def cbmAfter (body : PyStr) (c : Option ℚ) : Option ℚ :=
  rtStep (pyLower body) (c.map round2)

theorem ppSteps15_eq (body : PyStr) (x : Candidate) :
    ppSteps15 body x =
      { x with product_line := some (plRule x.origin_port_code x.destination_port_code),
               cargo_weight_kg := wAfter body x.cargo_weight_kg,
               cargo_cbm := cbmAfter body x.cargo_cbm } := by
  unfold ppSteps15 wAfter cbmAfter ppRound
  rw [ppProductLine_eq, ppRT_eq, ppConsolidated_eq, ppCommaWeight_eq]

/-! Step 6 and the whole corrector: shape of a successful run. -/

theorem ppOriginName_ok (body : PyStr) (idx : List (PyStr × List PyStr))
    (x y : Candidate) (h : ppOriginName body idx x = .ok y) :
    ∃ nm, nameField body idx x.origin_port_code x.origin_port_name false = .ok nm ∧
      y = { x with origin_port_name := nm } := by
  unfold ppOriginName at h
  rcases hn : nameField body idx x.origin_port_code x.origin_port_name false with e | nm
  · rw [hn] at h; exact absurd h (by simp)
  · rw [hn] at h
    refine ⟨nm, rfl, ?_⟩
    injection h with h'
    exact h'.symm

theorem ppDestName_ok (body : PyStr) (idx : List (PyStr × List PyStr))
    (x y : Candidate) (h : ppDestName body idx x = .ok y) :
    ∃ nm, nameField body idx x.destination_port_code x.destination_port_name true = .ok nm ∧
      y = { x with destination_port_name := nm } := by
  unfold ppDestName at h
  rcases hn : nameField body idx x.destination_port_code x.destination_port_name true with e | nm
  · rw [hn] at h; exact absurd h (by simp)
  · rw [hn] at h
    refine ⟨nm, rfl, ?_⟩
    injection h with h'
    exact h'.symm

theorem ppNames_ok (body : PyStr) (idx : List (PyStr × List PyStr))
    (x y : Candidate) (h : ppNames body idx x = .ok y) :
    ∃ nm1 nm2,
      nameField body idx x.origin_port_code x.origin_port_name false = .ok nm1 ∧
      nameField body idx x.destination_port_code x.destination_port_name true = .ok nm2 ∧
      y = { x with origin_port_name := nm1, destination_port_name := nm2 } := by
  unfold ppNames at h
  rcases ho : ppOriginName body idx x with e | y1
  · rw [ho] at h; exact absurd h (by simp)
  · rw [ho] at h
    obtain ⟨nm1, hn1, hy1⟩ := ppOriginName_ok _ _ _ _ ho
    obtain ⟨nm2, hn2, hy2⟩ := ppDestName_ok _ _ _ _ h
    subst hy1
    exact ⟨nm1, nm2, hn1, hn2, by rw [hy2]⟩

theorem post_ok_fields (x : Candidate) (body : PyStr)
    (idx : List (PyStr × List PyStr)) (y : Candidate)
    (h : post_process_extraction x body idx = .ok y) :
    y.cargo_weight_kg = wAfter body x.cargo_weight_kg ∧
    y.cargo_cbm = cbmAfter body x.cargo_cbm ∧
    y.product_line = some (plRule x.origin_port_code x.destination_port_code) ∧
    y.origin_port_code = x.origin_port_code ∧
    y.destination_port_code = x.destination_port_code ∧
    y.id = x.id ∧ y.incoterm = x.incoterm ∧ y.is_dangerous = x.is_dangerous := by
  unfold post_process_extraction at h
  obtain ⟨nm1, nm2, hn1, hn2, hy⟩ := ppNames_ok _ _ _ _ h
  subst hy
  rw [ppSteps15_eq]
  simp

/-! Totality of the corrector over a built index (no name list on record
is empty, so the IndexError branch of the resolver is unreachable). -/

theorem buildAllNames_values (records : List PortRecord) :
    ∀ c l, alookup (buildAllNames records) c = some l → l ≠ [] := by
  unfold buildAllNames
  suffices h : ∀ acc, (∀ c l, alookup acc c = some l → l ≠ []) →
      ∀ c l, alookup (records.foldl stepAllNames acc) c = some l → l ≠ [] by
    refine h [] ?_
    intro c l hl
    simp [alookup] at hl
  induction records with
  | nil => intro acc hacc c l hl; exact hacc c l hl
  | cons r rest ih =>
    intro acc hacc c l hl
    rw [List.foldl_cons] at hl
    refine ih (stepAllNames acc r) ?_ c l hl
    intro c' l' hl'
    unfold stepAllNames at hl'
    by_cases hc : c' = r.code
    · subst hc
      rcases ha : alookup acc r.code with _ | names <;> rw [ha] at hl' <;>
        rw [alookup_alSet_self] at hl' <;> injection hl' with h' <;> rw [← h'] <;> simp
    · rcases ha : alookup acc r.code with _ | names <;> rw [ha] at hl' <;>
        rw [alookup_alSet_ne _ _ _ _ hc] at hl' <;> exact hacc c' l' hl'

theorem getBest_error_imp (code body : PyStr) (idx : List (PyStr × List PyStr))
    (d : Bool) (e : Unit) (h : get_best_port_name code body idx d = .error e) :
    alookup idx code = some [] := by
  unfold get_best_port_name at h
  by_cases hc : code = []
  · rw [if_pos hc] at h; exact absurd h (by simp)
  · rw [if_neg hc] at h
    rcases hl : alookup idx code with _ | names
    · rw [hl] at h; exact absurd h (by simp)
    · simp only [hl] at h
      rcases hr : resolverRules code body names d with _ | n
      · simp only [hr] at h
        rcases hd : defaultName names with e' | n
        · have hnil : names = [] := by
            unfold defaultName at hd
            rcases hf : names.filter (fun n => !strHas n (" / ".data)) with _ | _
            · simp only [hf] at hd
              rcases names with _ | ⟨a0, t⟩
              · rfl
              · exact absurd hd (by simp)
            · simp only [hf] at hd; exact absurd hd (by simp)
          rw [hnil]
        · simp [hd] at h
      · simp [hr] at h

theorem getBest_ok_of (code body : PyStr) (idx : List (PyStr × List PyStr)) (d : Bool)
    (hne : ∀ l, alookup idx code = some l → l ≠ []) :
    ∃ r, get_best_port_name code body idx d = .ok r := by
  rcases hg : get_best_port_name code body idx d with e | r
  · exact absurd rfl (hne [] (getBest_error_imp _ _ _ _ _ hg))
  · exact ⟨r, rfl⟩

theorem nameField_ok_of (body : PyStr) (idx : List (PyStr × List PyStr))
    (code old : Option PyStr) (d : Bool)
    (hidx : ∀ c l, alookup idx c = some l → l ≠ []) :
    ∃ nm, nameField body idx code old d = .ok nm := by
  unfold nameField
  by_cases h1 : (truthyStr code && idx ≠ []) = true
  · rw [if_pos h1]
    by_cases h2 : (alookup idx (code.getD [])).isSome = true
    · rw [if_pos h2]
      obtain ⟨r, hr⟩ := getBest_ok_of (code.getD []) body idx d (fun l hl => hidx _ l hl)
      rw [hr]
      rcases r with _ | n
      · exact ⟨old, rfl⟩
      · exact ⟨_, rfl⟩
    · rw [if_neg h2]
      exact ⟨old, rfl⟩
  · rw [if_neg h1]
    by_cases h3 : (!truthyStr code) = true
    · rw [if_pos h3]; exact ⟨none, rfl⟩
    · rw [if_neg h3]; exact ⟨old, rfl⟩

theorem ppNames_ok_of (body : PyStr) (idx : List (PyStr × List PyStr)) (z : Candidate)
    (hidx : ∀ c l, alookup idx c = some l → l ≠ []) :
    ∃ y, ppNames body idx z = .ok y := by
  obtain ⟨nm1, h1⟩ := nameField_ok_of body idx z.origin_port_code z.origin_port_name false hidx
  obtain ⟨nm2, h2⟩ := nameField_ok_of body idx z.destination_port_code
    z.destination_port_name true hidx
  have ho : ppOriginName body idx z = .ok { z with origin_port_name := nm1 } := by
    unfold ppOriginName
    rw [h1]
  have hd : ppDestName body idx { z with origin_port_name := nm1 } =
      .ok { z with origin_port_name := nm1, destination_port_name := nm2 } := by
    unfold ppDestName
    have h2' : nameField body idx ({ z with origin_port_name := nm1 }).destination_port_code
        ({ z with origin_port_name := nm1 }).destination_port_name true = .ok nm2 := h2
    rw [h2']
  refine ⟨{ z with origin_port_name := nm1, destination_port_name := nm2 }, ?_⟩
  unfold ppNames
  rw [ho]
  exact hd

theorem pp_total (records : List PortRecord) (body : PyStr) (x : Candidate) :
    ∃ y, post_process_extraction x body (buildAllNames records) = .ok y := by
  unfold post_process_extraction
  exact ppNames_ok_of body _ _ (buildAllNames_values records)

/-- C3: for every well-typed candidate (the null-filled fallback record
and records with any subset of optional fields null included), every
email body and every index built from a record list, the corrector
returns a record and never fails. -/
theorem c3_corrector_total (records : List PortRecord) (body : PyStr) (x : Candidate) :
    ∃ y, post_process_extraction x body (buildAllNames records) = .ok y :=
  pp_total records body x

/-- The null-filled fallback record substituted when the upstream LLM
call fails (src/extract.py lines 404-415). -/
def fallbackCandidate (i : PyStr) : Candidate :=
  { id := i, product_line := none, origin_port_code := none, origin_port_name := none,
    destination_port_code := none, destination_port_name := none,
    incoterm := some ("FOB".data), cargo_weight_kg := none, cargo_cbm := none,
    is_dangerous := false }

theorem nameField_none (body : PyStr) (idx : List (PyStr × List PyStr))
    (old : Option PyStr) (d : Bool) : nameField body idx none old d = .ok none := by
  unfold nameField
  simp [truthyStr]

theorem round2_eq_self_of_mul_int (q : ℚ) (n : ℤ) (h : 100 * q = (n : ℚ)) :
    round2 q = q := by
  unfold round2
  rw [h, round_intCast, ← h]
  exact mul_div_cancel_left₀ q (by norm_num)

/-! C4.  The port-name null invariant. -/

/-- C4: on every successful correction, a null origin code forces a null
origin name, and symmetrically for the destination. -/
theorem c4_name_null_invariant (x : Candidate) (body : PyStr)
    (idx : List (PyStr × List PyStr)) (y : Candidate)
    (h : post_process_extraction x body idx = .ok y) :
    (y.origin_port_code = none → y.origin_port_name = none) ∧
    (y.destination_port_code = none → y.destination_port_name = none) := by
  unfold post_process_extraction at h
  obtain ⟨nm1, nm2, hn1, hn2, hy⟩ := ppNames_ok _ _ _ _ h
  subst hy
  constructor
  · intro hoc
    simp only at hoc ⊢
    rw [hoc] at hn1
    rw [nameField_none] at hn1
    injection hn1 with h'
    exact h'.symm
  · intro hdc
    simp only at hdc ⊢
    rw [hdc] at hn2
    rw [nameField_none] at hn2
    injection hn2 with h'
    exact h'.symm

/-- C4 witness: the corrector run on the null-filled fallback record over
an empty index ends with both names null. -/
theorem c4_witness :
    ∃ y, post_process_extraction (fallbackCandidate []) [] (buildAllNames []) = .ok y ∧
      y.origin_port_name = none ∧ y.destination_port_name = none := by
  obtain ⟨y, hy⟩ := pp_total [] [] (fallbackCandidate [])
  have hc := c4_name_null_invariant _ _ _ _ hy
  have hf := post_ok_fields _ _ _ _ hy
  refine ⟨y, hy, hc.1 ?_, hc.2 ?_⟩
  · rw [hf.2.2.2.1]; rfl
  · rw [hf.2.2.2.2.1]; rfl

/-! C7.  The RT override. -/

theorem parseDec_24 : parseDec ("2.4".data) = 12 / 5 := by
  have h1 : ("2.4".data).takeWhile (· ≠ '.') = "2".data := by decide
  have h2 : ("2.4".data).dropWhile (· ≠ '.') = ".4".data := by decide
  unfold parseDec
  rw [h1, h2]
  have h3 : digitsVal ("2".data) = 2 := by decide
  have h4 : digitsVal ((".4".data).drop 1) = 4 := by decide
  have h5 : ((".4".data).drop 1).length = 1 := by decide
  have h6 : digitsVal ['4'] = 4 := by decide
  norm_num [h3, h4, h5, h6]

/-- C7: whenever the lower-cased body matches the RT pattern with value
group `g` and the candidate's cargo_cbm is null, every successful
correction ends with cargo_cbm equal to the parsed RT value rounded to 2
decimal places; in particular a null-cbm candidate with body "2.4 RT"
ends with cargo_cbm 2.40. -/
theorem c7_rt_override :
    (∀ body idx x y g, rtScan (pyLower body) = some g → x.cargo_cbm = none →
        post_process_extraction x body idx = .ok y →
        y.cargo_cbm = some (round2 (parseDec g))) ∧
    (∀ y, post_process_extraction (fallbackCandidate []) ("2.4 RT".data)
        (buildAllNames []) = .ok y → y.cargo_cbm = some (2.4 : ℚ)) := by
  have main : ∀ body idx x y g, rtScan (pyLower body) = some g → x.cargo_cbm = none →
      post_process_extraction x body idx = .ok y →
      y.cargo_cbm = some (round2 (parseDec g)) := by
    intro body idx x y g hg hc h
    have hf := post_ok_fields x body idx y h
    rw [hf.2.1]
    unfold cbmAfter rtStep
    rw [hc, hg]
    simp [truthyQ]
  refine ⟨main, ?_⟩
  intro y h
  have hone := main ("2.4 RT".data) (buildAllNames []) (fallbackCandidate []) y
    ("2.4".data) (by decide) rfl h
  rw [hone, parseDec_24,
    round2_eq_self_of_mul_int (12 / 5) 240 (by norm_num)]
  norm_num

/-- C7 witness: the RT theorem applied at the concrete body "2.4 RT" and
the null-filled candidate. -/
theorem c7_witness :
    ∃ y, post_process_extraction (fallbackCandidate []) ("2.4 RT".data)
        (buildAllNames []) = .ok y ∧ y.cargo_cbm = some (2.4 : ℚ) := by
  obtain ⟨y, hy⟩ := pp_total [] ("2.4 RT".data) (fallbackCandidate [])
  exact ⟨y, hy, c7_rt_override.2 y hy⟩

/-! C6.  The comma-weight correction. -/

theorem parseDec_digits_eval (s : PyStr) (n : ℕ) (hd : ∀ c ∈ s, c.isDigit = true)
    (hn : digitsVal s = n) : parseDec s = (n : ℚ) := by
  rw [parseDec_digits s hd, hn]

theorem mid_weight_eq (body : PyStr) (x : Candidate) :
    (ppConsolidated body (ppRT body (ppRound (ppProductLine x)))).cargo_weight_kg =
      consolStep body (x.cargo_weight_kg.map round2) := by
  rw [ppProductLine_eq]
  unfold ppRound
  rw [ppRT_eq, ppConsolidated_eq]

/-- C6: if the grouped-thousands pattern matches the lower-cased body
with group `g`, every successful correction ends with the comma-stripped
rounded value of `g` as the weight, whatever the prior weight was;
otherwise, when the weight after steps 1-4 is a value below 10 and the
plain-digit kg pattern yields a value more than 100 times larger, that
larger value (rounded) wins; in particular body "Weight: 3,200 KGS" with
initial weight 32 or null ends with weight 3200. -/
theorem c6_comma_weight :
    (∀ body idx x y g, commaScan (pyLower body) = some g →
        post_process_extraction x body idx = .ok y →
        y.cargo_weight_kg = some (round2 (parseDec (stripCommas g)))) ∧
    (∀ body idx x y w d, commaScan (pyLower body) = none →
        (ppConsolidated body (ppRT body (ppRound (ppProductLine x)))).cargo_weight_kg
          = some w →
        w < 10 → plainKgScan (pyLower body) = some d → w * 100 < parseDec d →
        post_process_extraction x body idx = .ok y →
        y.cargo_weight_kg = some (round2 (parseDec d))) ∧
    (∀ y, post_process_extraction
        { fallbackCandidate [] with cargo_weight_kg := some 32 }
        ("Weight: 3,200 KGS".data) (buildAllNames []) = .ok y →
        y.cargo_weight_kg = some 3200) ∧
    (∀ y, post_process_extraction (fallbackCandidate [])
        ("Weight: 3,200 KGS".data) (buildAllNames []) = .ok y →
        y.cargo_weight_kg = some 3200) := by
  have part1 : ∀ body idx x y g, commaScan (pyLower body) = some g →
      post_process_extraction x body idx = .ok y →
      y.cargo_weight_kg = some (round2 (parseDec (stripCommas g))) := by
    intro body idx x y g hg h
    have hf := post_ok_fields x body idx y h
    rw [hf.1]
    unfold wAfter commaStep
    simp only [hg]
  have hval : round2 (parseDec (stripCommas ("3,200".data))) = 3200 := by
    have h1 : stripCommas ("3,200".data) = "3200".data := by decide
    rw [h1, parseDec_digits_eval _ 3200 (by decide) (by decide), round2_natCast]
    norm_num
  constructor
  · exact part1
  constructor
  · intro body idx x y w d hcs hmid hlt hpl hgt h
    rw [mid_weight_eq] at hmid
    have hf := post_ok_fields x body idx y h
    rw [hf.1]
    unfold wAfter
    rw [hmid]
    unfold commaStep
    simp only [hcs, hlt, hpl, hgt, if_true]
  constructor
  · intro y h
    have := part1 _ _ _ y ("3,200".data) (by decide) h
    rw [this, hval]
  · intro y h
    have := part1 _ _ _ y ("3,200".data) (by decide) h
    rw [this, hval]

/-- C6 witness: the comma-weight theorem applied at body
"Weight: 3,200 KGS" with initial weight 32 and with no initial weight. -/
theorem c6_witness :
    (∃ y, post_process_extraction
        { fallbackCandidate [] with cargo_weight_kg := some 32 }
        ("Weight: 3,200 KGS".data) (buildAllNames []) = .ok y ∧
        y.cargo_weight_kg = some 3200) ∧
    (∃ y, post_process_extraction (fallbackCandidate [])
        ("Weight: 3,200 KGS".data) (buildAllNames []) = .ok y ∧
        y.cargo_weight_kg = some 3200) := by
  constructor
  · obtain ⟨y, hy⟩ := pp_total [] ("Weight: 3,200 KGS".data)
      { fallbackCandidate [] with cargo_weight_kg := some 32 }
    exact ⟨y, hy, c6_comma_weight.2.2.1 y hy⟩
  · obtain ⟨y, hy⟩ := pp_total [] ("Weight: 3,200 KGS".data) (fallbackCandidate [])
    exact ⟨y, hy, c6_comma_weight.2.2.2 y hy⟩

/-! C10.  Zero-valued numeric fields are treated as unset by the
fill-if-unset steps. -/

/-- C10: the RT override of step 3 overwrites a zero cargo_cbm exactly as
it fills a null one, and the consolidated fallback of step 4 does the
same for a zero cargo_weight_kg. -/
theorem c10_zero_as_unset :
    (∀ body x g, rtScan (pyLower body) = some g → x.cargo_cbm = some 0 →
        (ppRT body x).cargo_cbm = some (round2 (parseDec g))) ∧
    (∀ body x w, is_consolidated_inquiry body = true →
        extract_weight_from_consolidated body = some w →
        x.cargo_weight_kg = some 0 →
        (ppConsolidated body x).cargo_weight_kg = some w) := by
  constructor
  · intro body x g hg hc
    rw [ppRT_eq]
    simp only
    unfold rtStep
    simp [hg, hc, truthyQ]
  · intro body x w hcons hext hw
    rw [ppConsolidated_eq]
    simp only
    unfold consolStep
    rw [hw, hext]
    by_cases hw0 : w = 0
    · simp [hcons, truthyQ, hw0]
    · simp [hcons, truthyQ, hw0]

/-- C10 witness: a zero cargo_cbm is overwritten by the RT value 2.4, and
a zero cargo_weight_kg by the consolidated weight 5. -/
theorem c10_witness :
    (ppRT ("2.4 RT".data)
        { fallbackCandidate [] with cargo_cbm := some 0 }).cargo_cbm = some (2.4 : ℚ) ∧
    (ppConsolidated ("a->b 5kg; c".data)
        { fallbackCandidate [] with cargo_weight_kg := some 0 }).cargo_weight_kg =
      some 5 := by
  constructor
  · rw [c10_zero_as_unset.1 ("2.4 RT".data) _ ("2.4".data) (by decide) rfl,
      parseDec_24, round2_eq_self_of_mul_int (12 / 5) 240 (by norm_num)]
    norm_num
  · have hext : extract_weight_from_consolidated ("a->b 5kg; c".data) = some 5 := by
      have hscan : kgScan (pyLower ("a->b 5kg; c".data)) = some ("5".data) := by decide
      unfold extract_weight_from_consolidated
      simp only [hscan]
      have h1 : stripCommas ("5".data) = "5".data := by decide
      rw [h1, parseDec_digits_eval _ 5 (by decide) (by decide), round2_natCast]
      norm_num
    exact c10_zero_as_unset.2 _ _ 5 (by decide) hext rfl

/-! C9.  The resolver returns null only for absent codes. -/

theorem buildAllNames_keys (records : List PortRecord) :
    ∀ c l, alookup (buildAllNames records) c = some l → ∃ r ∈ records, r.code = c := by
  unfold buildAllNames
  suffices h : ∀ acc c l, alookup (records.foldl stepAllNames acc) c = some l →
      (∃ r ∈ records, r.code = c) ∨ ∃ l0, alookup acc c = some l0 by
    intro c l hl
    rcases h [] c l hl with hr | ⟨l0, hl0⟩
    · exact hr
    · simp [alookup] at hl0
  induction records with
  | nil => intro acc c l hl; exact Or.inr ⟨l, hl⟩
  | cons r rest ih =>
    intro acc c l hl
    rw [List.foldl_cons] at hl
    rcases ih (stepAllNames acc r) c l hl with hr | ⟨l0, hl0⟩
    · rcases hr with ⟨r', hr', hc⟩
      exact Or.inl ⟨r', List.mem_cons_of_mem _ hr', hc⟩
    · by_cases hc : r.code = c
      · exact Or.inl ⟨r, List.mem_cons_self r rest, hc⟩
      · right
        have hstep : alookup (stepAllNames acc r) c = alookup acc c := by
          unfold stepAllNames
          rcases ha : alookup acc r.code with _ | ns <;>
            exact alookup_alSet_ne _ _ _ _ (fun hh => hc hh.symm)
        rw [hstep] at hl0
        exact ⟨l0, hl0⟩

/-- C9: over an index built from a non-empty record list whose codes are
non-empty strings (every PortRecord code is a 5-character string), the
resolver answers null only when the queried code is absent from the
index, and answers some name whenever the code has at least one recorded
name. -/
theorem c9_resolver_null_only_if_absent (records : List PortRecord)
    (h0 : records ≠ []) (hcodes : ∀ r ∈ records, r.code ≠ [])
    (code body : PyStr) (d : Bool) :
    (get_best_port_name code body (buildAllNames records) d = .ok none →
        alookup (buildAllNames records) code = none) ∧
    (∀ l, alookup (buildAllNames records) code = some l →
        ∃ n, get_best_port_name code body (buildAllNames records) d = .ok (some n)) := by
  have second : ∀ l, alookup (buildAllNames records) code = some l →
      ∃ n, get_best_port_name code body (buildAllNames records) d = .ok (some n) := by
    intro l hl
    have hln : l ≠ [] := buildAllNames_values records code l hl
    have hcode : code ≠ [] := by
      obtain ⟨r, hr, hrc⟩ := buildAllNames_keys records code l hl
      rw [← hrc]
      exact hcodes r hr
    unfold get_best_port_name
    rw [if_neg hcode]
    simp only [hl]
    rcases hr : resolverRules code body l d with _ | n
    · simp only [hr]
      unfold defaultName
      rcases hf : l.filter (fun n => !strHas n (" / ".data)) with _ | ⟨s0, srest⟩
      · simp only [hf]
        rcases hl' : l with _ | ⟨a0, t⟩
        · exact absurd hl' hln
        · exact ⟨a0, rfl⟩
      · simp only [hf]
        exact ⟨minByLen s0 srest, rfl⟩
    · simp only [hr]
      exact ⟨n, rfl⟩
  refine ⟨?_, second⟩
  intro hok
  rcases hcase : alookup (buildAllNames records) code with _ | l
  · rfl
  · obtain ⟨n, hn⟩ := second l hcase
    rw [hn] at hok
    exact absurd hok (by simp)

/-- C9 witness: the theorem applied to the one-record reference
(AAAAA, Alpha); the resolver answers a name for AAAAA. -/
theorem c9_witness :
    ∃ n, get_best_port_name ("AAAAA".data) ("hello".data)
        (buildAllNames [⟨"AAAAA".data, "Alpha".data⟩]) false = .ok (some n) := by
  refine (c9_resolver_null_only_if_absent [⟨"AAAAA".data, "Alpha".data⟩]
      (by simp) ?_ ("AAAAA".data) ("hello".data) false).2 ["Alpha".data] ?_
  · intro r hr
    rw [List.mem_singleton] at hr
    subst hr
    decide
  · decide

/-! C2.  Idempotence of the corrector. -/

theorem map_round2_map_round2 (c : Option ℚ) :
    (c.map round2).map round2 = c.map round2 := by
  rcases c with _ | q <;> simp [round2_round2]

theorem rtStep_fixed (L : PyStr) (c0 : Option ℚ) (h : c0.map round2 = c0) :
    (rtStep L c0).map round2 = rtStep L c0 := by
  unfold rtStep
  rcases rtScan L with _ | g
  · exact h
  · by_cases ht : (!truthyQ c0) = true
    · simp [ht, round2_round2]
    · simp [ht, h]

theorem rtStep_idem (L : PyStr) (c0 : Option ℚ) :
    rtStep L (rtStep L c0) = rtStep L c0 := by
  unfold rtStep
  rcases rtScan L with _ | g
  · rfl
  · by_cases ht : (!truthyQ c0) = true
    · simp only [ht, if_true]
      by_cases ht2 : (!truthyQ (some (round2 (parseDec g)))) = true
      · simp [ht2]
      · simp [ht2]
    · simp [ht]

theorem cbmAfter_idem (body : PyStr) (c : Option ℚ) :
    cbmAfter body (cbmAfter body c) = cbmAfter body c := by
  unfold cbmAfter
  rw [rtStep_fixed _ _ (map_round2_map_round2 c), rtStep_idem]

theorem extractW_fixed (body : PyStr) (w : ℚ)
    (h : extract_weight_from_consolidated body = some w) : round2 w = w := by
  unfold extract_weight_from_consolidated at h
  rcases hs : kgScan (pyLower body) with _ | g
  · rw [hs] at h; exact absurd h (by simp)
  · simp only [hs] at h
    injection h with h'
    rw [← h']
    exact round2_round2 _

theorem extractW_nonneg (body : PyStr) (w : ℚ)
    (h : extract_weight_from_consolidated body = some w) : 0 ≤ w := by
  unfold extract_weight_from_consolidated at h
  rcases hs : kgScan (pyLower body) with _ | g
  · rw [hs] at h; exact absurd h (by simp)
  · simp only [hs] at h
    injection h with h'
    rw [← h']
    exact round2_nonneg _ (parseDec_nonneg _)

theorem consolStep_cases (body : PyStr) (w' : Option ℚ) (v : ℚ)
    (h : consolStep body w' = some v) :
    w' = some v ∨ (extract_weight_from_consolidated body = some v ∧ v ≠ 0) := by
  unfold consolStep at h
  by_cases hc : (is_consolidated_inquiry body && !truthyQ w') = true
  · rw [if_pos hc] at h
    rcases he : extract_weight_from_consolidated body with _ | e
    · simp only [he] at h; exact Or.inl h
    · simp only [he] at h
      by_cases he0 : (e ≠ 0)
      · rw [if_pos he0] at h
        injection h with h'
        subst h'
        exact Or.inr ⟨rfl, he0⟩
      · rw [if_neg he0] at h; exact Or.inl h
  · rw [if_neg hc] at h; exact Or.inl h

theorem consolStep_none (body : PyStr) (w' : Option ℚ)
    (h : consolStep body w' = none) : w' = none := by
  unfold consolStep at h
  by_cases hc : (is_consolidated_inquiry body && !truthyQ w') = true
  · rw [if_pos hc] at h
    rcases he : extract_weight_from_consolidated body with _ | e
    · simp only [he] at h; exact h
    · simp only [he] at h
      by_cases he0 : (e ≠ 0)
      · rw [if_pos he0] at h; exact absurd h (by simp)
      · rw [if_neg he0] at h; exact h
  · rw [if_neg hc] at h; exact h

theorem plainKgMatchAt_digits (s d : PyStr) (h : plainKgMatchAt s = some d) :
    ∀ c ∈ d, c.isDigit = true := by
  unfold plainKgMatchAt takeDigits at h
  by_cases h1 : s.takeWhile Char.isDigit = []
  · simp [h1] at h
  · simp only [h1, if_neg, if_false] at h
    by_cases h2 : kgTail (s.dropWhile Char.isDigit) = true
    · simp only [h2, if_true] at h
      injection h with h'
      rw [← h']
      intro c hc
      exact List.mem_takeWhile_imp hc
    · simp [h2] at h

theorem plainKg_digits (L d : PyStr) (h : plainKgScan L = some d) :
    ∀ c ∈ d, c.isDigit = true := by
  induction L with
  | nil => simp [plainKgScan] at h
  | cons a t ih =>
    rw [plainKgScan] at h
    rcases hm : plainKgMatchAt (a :: t) with _ | d'
    · rw [hm] at h
      simp only [Option.none_orElse] at h
      exact ih h
    · rw [hm] at h
      simp only [Option.some_orElse] at h
      injection h with h'
      subst h'
      exact plainKgMatchAt_digits _ _ hm

theorem commaStep_of_some (L : PyStr) (g : PyStr) (hcs : commaScan L = some g)
    (u : Option ℚ) :
    commaStep L u = some (round2 (parseDec (stripCommas g))) := by
  unfold commaStep
  simp [hcs]

theorem round2_zero : round2 (0 : ℚ) = 0 := by
  simpa using round2_natCast 0

theorem wAfter_idem (body : PyStr) (w : Option ℚ)
    (hw : ∀ q, w = some q → 0 ≤ q) :
    wAfter body (wAfter body w) = wAfter body w := by
  unfold wAfter
  rcases hcs : commaScan (pyLower body) with _ | g
  case some =>
    simp [commaStep_of_some _ _ hcs]
  case none =>
    have hw0nn : ∀ q, w.map round2 = some q → 0 ≤ q := by
      intro q hq
      rcases w with _ | v
      · simp at hq
      · simp only [Option.map_some'] at hq
        injection hq with h'
        rw [← h']
        exact round2_nonneg v (hw v rfl)
    rcases hw1 : consolStep body (w.map round2) with _ | v
    case none =>
      have h0 : w.map round2 = none := consolStep_none _ _ hw1
      rw [h0] at hw1
      have ha : commaStep (pyLower body) none = none := by
        unfold commaStep
        simp [hcs]
      rw [ha]
      simp only [Option.map_none']
      rw [hw1]
      exact ha
    case some =>
      have hvfix : round2 v = v := by
        rcases consolStep_cases body _ v hw1 with hkeep | ⟨hext, hne⟩
        · rcases w with _ | q
          · simp at hkeep
          · simp only [Option.map_some'] at hkeep
            injection hkeep with h'
            rw [← h']
            exact round2_round2 q
        · exact extractW_fixed body v hext
      have hvnn : 0 ≤ v := by
        rcases consolStep_cases body _ v hw1 with hkeep | ⟨hext, hne⟩
        · exact hw0nn v hkeep
        · exact extractW_nonneg body v hext
      have hmapv : (some v).map round2 = some v := by simp [hvfix]
      by_cases hv10 : v < 10
      · rcases hpl : plainKgScan (pyLower body) with _ | dnum
        · -- no plain-digit match: the weight survives both passes
          have ha : commaStep (pyLower body) (some v) = some v := by
            unfold commaStep
            simp [hcs, hv10, hpl]
          by_cases hv0 : v = 0
          · subst hv0
            have h0 : w.map round2 = some 0 := by
              rcases consolStep_cases body _ 0 hw1 with hkeep | ⟨hext, hne⟩
              · exact hkeep
              · exact absurd rfl hne
            rw [h0] at hw1
            rw [ha, hmapv, hw1]
            exact ha
          · have hcons : consolStep body (some v) = some v := by
              unfold consolStep
              simp [truthyQ, hv0]
            rw [ha, hmapv, hcons]
            exact ha
        · -- plain-digit match with value p := parseDec dnum
          have hpfix : round2 (parseDec dnum) = parseDec dnum := by
            rw [parseDec_digits _ (plainKg_digits _ _ hpl)]
            exact round2_natCast _
          by_cases hgt : v * 100 < parseDec dnum
          · -- heuristic fires in the first pass
            have ha : commaStep (pyLower body) (some v) =
                some (parseDec dnum) := by
              unfold commaStep
              simp [hcs, hv10, hpl, hgt, hpfix]
            have hppos : 0 < parseDec dnum :=
              lt_of_le_of_lt (by nlinarith) hgt
            have hcons : consolStep body (some (parseDec dnum)) =
                some (parseDec dnum) := by
              unfold consolStep
              simp [truthyQ, ne_of_gt hppos]
            have hfinal : commaStep (pyLower body) (some (parseDec dnum)) =
                some (parseDec dnum) := by
              unfold commaStep
              simp only [hcs]
              by_cases hp10 : parseDec dnum < 10
              · simp only [hp10, if_true, hpl]
                have hno : ¬ (parseDec dnum * 100 < parseDec dnum) := by nlinarith
                simp [hno]
              · simp [hp10]
            rw [ha, show (some (parseDec dnum)).map round2 =
              some (parseDec dnum) by simp [hpfix], hcons]
            exact hfinal
          · -- heuristic does not fire in either pass
            have ha : commaStep (pyLower body) (some v) = some v := by
              unfold commaStep
              simp [hcs, hv10, hpl, hgt]
            by_cases hv0 : v = 0
            · subst hv0
              have h0 : w.map round2 = some 0 := by
                rcases consolStep_cases body _ 0 hw1 with hkeep | ⟨hext, hne⟩
                · exact hkeep
                · exact absurd rfl hne
              rw [h0] at hw1
              rw [ha, hmapv, hw1]
              exact ha
            · have hcons : consolStep body (some v) = some v := by
                unfold consolStep
                simp [truthyQ, hv0]
              rw [ha, hmapv, hcons]
              exact ha
      · -- v is at least 10: nothing fires in either pass
        have ha : commaStep (pyLower body) (some v) = some v := by
          unfold commaStep
          simp [hcs, hv10]
        have hv0 : v ≠ 0 := by
          intro h
          rw [h] at hv10
          norm_num at hv10
        have hcons : consolStep body (some v) = some v := by
          unfold consolStep
          simp [truthyQ, hv0]
        rw [ha, hmapv, hcons]
        exact ha

theorem nameField_idem (body : PyStr) (idx : List (PyStr × List PyStr))
    (code old : Option PyStr) (d : Bool) (nm : Option PyStr)
    (h : nameField body idx code old d = .ok nm) :
    nameField body idx code nm d = .ok nm := by
  unfold nameField at h ⊢
  by_cases h1 : (truthyStr code && idx ≠ []) = true
  · rw [if_pos h1] at h ⊢
    by_cases h2 : (alookup idx (code.getD [])).isSome = true
    · rw [if_pos h2] at h ⊢
      rcases hg : get_best_port_name (code.getD []) body idx d with e | r
      · rw [hg] at h
        exact absurd h (by simp)
      · simp only [hg] at h ⊢
        rcases r with _ | n
        · rfl
        · have h2' : (if n ≠ [] then some n else old) = nm := by
            injection h
          by_cases hn : (n ≠ [])
          · rw [if_pos hn] at h2'
            show Except.ok (if n ≠ [] then some n else nm) = Except.ok nm
            rw [if_pos hn, h2']
          · rw [if_neg hn] at h2'
            show Except.ok (if n ≠ [] then some n else nm) = Except.ok nm
            rw [if_neg hn]
    · rw [if_neg h2] at h ⊢
  · rw [if_neg h1] at h ⊢
    by_cases h3 : (!truthyStr code) = true
    · rw [if_pos h3] at h ⊢
      exact h
    · rw [if_neg h3] at h ⊢

/-- C2: over an index built from any record list, correcting an already
corrected record changes nothing: the corrections are determined by the
email, the index and the fields the corrector does not rewrite.  The
candidate is well-typed, so its weight is non-negative when present (the
ShipmentCandidate schema requires cargo_weight_kg ≥ 0). -/
theorem c2_corrector_idempotent (records : List PortRecord) (body : PyStr)
    (x : Candidate) (hw : ∀ q, x.cargo_weight_kg = some q → 0 ≤ q)
    (y : Candidate)
    (h : post_process_extraction x body (buildAllNames records) = .ok y) :
    post_process_extraction y body (buildAllNames records) = .ok y := by
  unfold post_process_extraction at h ⊢
  obtain ⟨nm1, nm2, hn1, hn2, hy⟩ := ppNames_ok _ _ _ _ h
  have hz := ppSteps15_eq body x
  have hoc : y.origin_port_code = x.origin_port_code := by
    rw [hy, hz]
  have hdc : y.destination_port_code = x.destination_port_code := by
    rw [hy, hz]
  have hwq : y.cargo_weight_kg = wAfter body x.cargo_weight_kg := by
    rw [hy, hz]
  have hcq : y.cargo_cbm = cbmAfter body x.cargo_cbm := by
    rw [hy, hz]
  have hpl : y.product_line = some (plRule x.origin_port_code x.destination_port_code) := by
    rw [hy, hz]
  have hon : y.origin_port_name = nm1 := by rw [hy]
  have hdn : y.destination_port_name = nm2 := by rw [hy]
  -- steps 1-5 leave the already-corrected record unchanged
  have hstep : ppSteps15 body y = y := by
    rw [ppSteps15_eq body y]
    ext1
    · rfl
    · simp only [hpl, hoc, hdc]
    · rfl
    · rfl
    · rfl
    · rfl
    · rfl
    · simp only [hwq]
      exact wAfter_idem body x.cargo_weight_kg hw
    · simp only [hcq]
      exact cbmAfter_idem body x.cargo_cbm
    · rfl
  rw [hstep]
  -- step 6 recomputes the same names
  have hzoc : (ppSteps15 body x).origin_port_code = x.origin_port_code := by rw [hz]
  have hzon : (ppSteps15 body x).origin_port_name = x.origin_port_name := by rw [hz]
  have hzdc : (ppSteps15 body x).destination_port_code = x.destination_port_code := by
    rw [hz]
  have hzdn : (ppSteps15 body x).destination_port_name = x.destination_port_name := by
    rw [hz]
  rw [hzoc, hzon] at hn1
  rw [hzdc, hzdn] at hn2
  have hid1 := nameField_idem body _ x.origin_port_code x.origin_port_name false nm1 hn1
  have hid2 := nameField_idem body _ x.destination_port_code x.destination_port_name
    true nm2 hn2
  have ho : ppOriginName body (buildAllNames records) y = .ok y := by
    unfold ppOriginName
    have harg : nameField body (buildAllNames records) y.origin_port_code
        y.origin_port_name false = .ok nm1 := by
      rw [hoc, hon]
      exact hid1
    rw [harg, ← hon]
  have hd : ppDestName body (buildAllNames records) y = .ok y := by
    unfold ppDestName
    have harg : nameField body (buildAllNames records) y.destination_port_code
        y.destination_port_name true = .ok nm2 := by
      rw [hdc, hdn]
      exact hid2
    rw [harg, ← hdn]
  unfold ppNames
  rw [ho]
  exact hd

/-- C2 witness: the idempotence theorem applied to the null-filled
fallback candidate, an arbitrary body and the empty index. -/
theorem c2_witness :
    ∃ y, post_process_extraction (fallbackCandidate []) ("2.4 RT".data)
        (buildAllNames []) = .ok y ∧
      post_process_extraction y ("2.4 RT".data) (buildAllNames []) = .ok y := by
  obtain ⟨y, hy⟩ := pp_total [] ("2.4 RT".data) (fallbackCandidate [])
  refine ⟨y, hy, c2_corrector_idempotent [] ("2.4 RT".data) (fallbackCandidate [])
    ?_ y hy⟩
  intro q hq
  exact absurd hq (by simp [fallbackCandidate])

end Extract
